import Mathlib

/-!
Shallow embedding of the DIA (diagonal) sparse-matrix format module
(scipy/sparse/dia.py) and proofs about its operations.

The matrix holds a K × L strip buffer `data`, a list `diags` of K signed
offsets, and a logical shape (rows, cols).  Element `data[i][c]` represents
matrix entry (c - diags[i], c), live when that position is inside the shape.
numpy machine integers never overflow in the index arithmetic modelled here
(offsets and dimensions are tiny), so indices are Int/Nat.
-/

/-- Errors surfaced by construction and multiplication: the source raises
ValueError with a message; MalformedStructure and DimensionMismatch are the
spec taxonomy's names for the two validation kinds.  BroadcastMismatch is
the numpy ValueError raised inside the multiply loop when, for an
out-of-range offset, the wrapped slice bounds give multiply(a, b, out=c)
operands with incompatible row counts — an error path outside the spec's
taxonomy. -/
inductive DiaError where
  | MalformedStructure
  | DimensionMismatch
  | BroadcastMismatch
  deriving DecidableEq

/-- The dia_matrix record: `data` rows are the stored diagonal strips,
`diags` the offsets, `shape` the logical (rows, cols). -/
structure dia_matrix where
  data : List (List Int)
  diags : List Int
  shape : Nat × Nat
  deriving DecidableEq

/-- Stored strip width L = data.shape[1] (0 when there are no rows, matching
the empty numpy buffer zeros((0,0))). -/
def dia_matrix.L (m : dia_matrix) : Nat :=
  ((m.data.head?).map List.length).getD 0

/-- A numpy 2-D array is rectangular: every row has the width of the first.
A ragged list is not a rank-2 array. -/
def rectangular (d : List (List Int)) : Bool :=
  d.all (fun r => r.length = ((d.head?).map List.length).getD 0)

/-- The validating constructor (dia_matrix.__init__, (data, diags) + shape
form): data must coerce to a rank-2 buffer, the row counts of data and diags
must agree, and diags must hold no duplicate value (len(unique(diags)) ==
len(diags)); otherwise the construction fails. -/
def mkDia (d : List (List Int)) (g : List Int) (s : Nat × Nat) :
    Except DiaError dia_matrix :=
  if rectangular d = true then
    if d.length = g.length then
      if g.dedup.length = g.length then Except.ok ⟨d, g, s⟩
      else Except.error DiaError.MalformedStructure
    else Except.error DiaError.MalformedStructure
  else Except.error DiaError.MalformedStructure

/-- dia_matrix.getnnz: for each stored offset k it adds min(M, N-k) when
k > 0 and min(M+k, N) otherwise.  The source never floors a negative
summand, so the result is an Int. -/
def dia_matrix.getnnz (m : dia_matrix) : Int :=
  m.diags.foldl
    (fun nnz k =>
      if k > 0 then nnz + min (m.shape.1 : Int) ((m.shape.2 : Int) - k)
      else nnz + min ((m.shape.1 : Int) + k) (m.shape.2 : Int)) 0

/-- Column-window start of the diagonal with offset k: j_start = max(0, k). -/
def jStartOf (k : Int) : Int := max 0 k

/-- Column-window end: j_end = min(M + k, N, L). -/
def jEndOf (M N L : Nat) (k : Int) : Int :=
  min (min ((M : Int) + k) (N : Int)) (L : Int)

/-- Row-window start: i_start = max(0, -k). -/
def iStartOf (k : Int) : Int := max 0 (-k)

/-- Output row i receives a contribution from the diagonal with offset k
exactly when i lies in [i_start, i_start + (j_end - j_start)). -/
abbrev inWindow (M N L : Nat) (k : Int) (i : Nat) : Prop :=
  0 ≤ (i : Int) - iStartOf k ∧
    (i : Int) - iStartOf k < jEndOf M N L k - jStartOf k

/-- The data/operand column paired with output row i on the diagonal with
offset k: j = j_start + (i - i_start), so that row = col - k. -/
def diaIndex (k : Int) (i : Nat) : Nat :=
  (jStartOf k + ((i : Int) - iStartOf k)).toNat

/-- Python slice index resolution on a sequence of length n: a negative
bound wraps by adding n and is clamped at 0; a non-negative bound is clamped
at n. -/
def sliceIdx (n : Nat) (p : Int) : Nat :=
  if p < 0 then (p + (n : Int)).toNat else min p.toNat n

/-- Number of elements selected by the Python slice a[p:q] on a sequence of
length n. -/
def sliceLen (n : Nat) (p q : Int) : Nat := sliceIdx n q - sliceIdx n p

/-- Row count of diag[j_start:j_end] (the diagonal strip has length L). -/
def lenA (M N L : Nat) (k : Int) : Nat :=
  sliceLen L (jStartOf k) (jEndOf M N L k)

/-- Row count of x[j_start:j_end] (the operand has N = cols rows). -/
def lenB (M N L : Nat) (k : Int) : Nat :=
  sliceLen N (jStartOf k) (jEndOf M N L k)

/-- Row count of temp[i_start:i_end] (the output buffer has M = rows rows). -/
def lenC (M N L : Nat) (k : Int) : Nat :=
  sliceLen M (iStartOf k) (iStartOf k + (jEndOf M N L k - jStartOf k))

/-- numpy operand compatibility for multiply(a, b, out=c) over the row
dimension: all operands are broadcast together, a size-1 input stretches,
and the output is never stretched — so the non-1 row counts must all agree
and a size-1 output forces both inputs to size 1.  (The column dimension is
always (1, P, P) and never fails.) -/
abbrev bcastOk (la lb lc : Nat) : Prop :=
  (la = lb ∨ la = 1 ∨ lb = 1) ∧ (la = lc ∨ la = 1 ∨ lc = 1) ∧
    (lb = lc ∨ lb = 1 ∨ lc = 1) ∧ (lc = 1 → la = 1 ∧ lb = 1)

/-- The multiply of the diagonal with offset k proceeds without raising:
its three slices have broadcast-compatible row counts.  In the proper
regime (-M <= k <= min(N, L)) all three are equal; for offsets outside it
Python's negative slice bounds wrap and the counts can disagree, which is
the source's mid-loop ValueError. -/
abbrev diagOk (M N L : Nat) (k : Int) : Prop :=
  bcastOk (lenA M N L k) (lenB M N L k) (lenC M N L k)

/-- Apply f to every row of y, passing the row index (the slice update
y[i_start:i_end] op= ... of the source, expressed row-by-row). -/
def updRows (f : Nat → List Int → List Int) : Nat → List (List Int) → List (List Int)
  | _, [] => []
  | i, r :: rs => f i r :: updRows f (i + 1) rs

/-- The write step of one matvec loop iteration, for a diagonal whose
slices are broadcast-compatible (matvec checks diagOk and raises
otherwise): y[i_start:i_end] += d[j_start:j_end] (broadcast) *
x[j_start:j_end].  Under diagOk a row is written exactly when i is in the
proper window [i_start, i_start + (j_end - j_start)): every compatible
non-window case has an empty output slice, where numpy writes nothing. -/
def applyDiag (M N L : Nat) (x : List (List Int)) (d : List Int) (k : Int)
    (y : List (List Int)) : List (List Int) :=
  updRows
    (fun i row =>
      if inWindow M N L k i then
        List.zipWith (fun yv xv => yv + d.getD (diaIndex k i) 0 * xv) row
          (x.getD (diaIndex k i) [])
      else row) 0 y

/-- The operand's column count P = x.shape[1]. -/
def xWidth (x : List (List Int)) : Nat :=
  ((x.head?).map List.length).getD 0

/-- dia_matrix.matvec on a rank-2 operand: checks shape[1] == x.shape[0],
zero-initializes y of shape (M, P) and runs the diagonal loop over
zip(data, diags).  Each iteration calls multiply(diag[j_start:j_end],
x[j_start:j_end], temp[i_start:i_end]) with Python slice semantics: when
the wrapped slices have incompatible row counts (out-of-range offsets)
numpy raises mid-loop and no result is returned; otherwise the iteration
accumulates the diagonal. -/
def dia_matrix.matvec (m : dia_matrix) (x : List (List Int)) :
    Except DiaError (List (List Int)) :=
  if m.shape.2 ≠ x.length then Except.error DiaError.DimensionMismatch
  else
    (m.data.zip m.diags).foldlM
      (fun y dk =>
        if diagOk m.shape.1 m.shape.2 m.L dk.2 then
          Except.ok (applyDiag m.shape.1 m.shape.2 m.L x dk.1 dk.2 y)
        else Except.error DiaError.BroadcastMismatch)
      (List.replicate m.shape.1 (List.replicate (xWidth x) 0))

/-- dia_matrix.matvec on a rank-1 operand: the source reshapes the vector to
(-1, 1), multiplies, and reshapes the result back to rank 1. -/
def dia_matrix.matvecVec (m : dia_matrix) (v : List Int) : Except DiaError (List Int) :=
  (m.matvec (v.map (fun a => [a]))).map (fun y => y.map (fun r => r.getD 0 0))

/-- The masked triple of candidate column c on a diagonal with offset k:
row = c - k, kept when 0 <= row < M and c < N. -/
def diagTriple (M N : Nat) (d : List Int) (k : Int) (c : Nat) :
    Option (Int × Int × Int) :=
  if 0 ≤ (c : Int) - k ∧ (c : Int) - k < (M : Int) ∧ (c : Int) < (N : Int) then
    some ((c : Int) - k, (c : Int), d.getD c 0)
  else none

/-- The triples one diagonal contributes to tocoo: candidate columns
c = 0..L-1 run through the mask. -/
def perDiag (M N L : Nat) (d : List Int) (k : Int) : List (Int × Int × Int) :=
  (List.range L).filterMap (diagTriple M N d k)

/-- dia_matrix.tocoo: the masked (row, col, value) triples of every stored
diagonal, flattened in diagonal-major order. -/
def dia_matrix.tocoo (m : dia_matrix) : List (Int × Int × Int) :=
  ((m.data.zip m.diags).map (fun dk =>
    perDiag m.shape.1 m.shape.2 m.L dk.1 dk.2)).flatten

/-- dia_matrix.__mul__ with a scalar: rebuild through the validating
constructor from (s * data, diags) and the same shape. -/
def dia_matrix.mulScalar (m : dia_matrix) (s : Int) : Except DiaError dia_matrix :=
  mkDia (m.data.map (fun r => r.map (fun v => s * v))) m.diags m.shape

/-- dia_matrix._with_data: rebuild through the validating constructor from
the given data, the same offsets and the same shape. -/
def dia_matrix.withData (m : dia_matrix) (d : List (List Int)) :
    Except DiaError dia_matrix :=
  mkDia d m.diags m.shape

/-- The structural invariants the constructor validates (rank-1 offsets and
rank-2 data are inherent to the field types; rectangularity is the rank-2
buffer shape). -/
def Invariants (m : dia_matrix) : Prop :=
  rectangular m.data = true ∧ m.data.length = m.diags.length ∧ m.diags.Nodup

/-- The worked example of the spec: three stored rows [1,2,3,4], offsets
[0,-1,2], a 4 × 4 shape. -/
def exDia : dia_matrix :=
  ⟨[[1, 2, 3, 4], [1, 2, 3, 4], [1, 2, 3, 4]], [0, -1, 2], (4, 4)⟩

/-- The truncated-strip example: rows = cols = 4, single offset 0, but the
stored strip is only [5, 6] (L = 2). -/
def truncDia : dia_matrix := ⟨[[5, 6]], [0], (4, 4)⟩

/-- A matrix whose single offset 10 lies entirely outside the 4 × 4 shape. -/
def outDia : dia_matrix := ⟨[[1, 2, 3, 4]], [10], (4, 4)⟩

/-- A validly constructed matrix with offset 5 on a 4 × 4 shape (L = 4):
in matvec, diag[5:4] and x[5:4] are empty but temp[0:-1] wraps to 3 rows,
so the source's multiply raises. -/
def crashDia : dia_matrix := ⟨[[1, 2, 3, 4]], [5], (4, 4)⟩

/-- The symmetric case with offset -5: diag[0:-1] and x[0:-1] wrap to 3
rows but temp[5:4] is empty, so the source's multiply raises. -/
def crashDia2 : dia_matrix := ⟨[[1, 2, 3, 4]], [-5], (4, 4)⟩

/-- A second matrix with the same shape and offsets as truncDia but a wider,
different data buffer (L = 4, other values). -/
def truncDia2 : dia_matrix := ⟨[[9, 9, 9, 9]], [0], (4, 4)⟩

/-- The worked example with every stored value zero: getnnz counts
structurally stored entries, not numerically nonzero ones. -/
def zeroDia : dia_matrix :=
  ⟨[[0, 0, 0, 0], [0, 0, 0, 0], [0, 0, 0, 0]], [0, -1, 2], (4, 4)⟩

/-- Every row of y has length P (a rank-2 buffer of width P). -/
def RowsLen (y : List (List Int)) (P : Nat) : Prop := ∀ r ∈ y, r.length = P

/-- Entry (i, p) of a rank-2 buffer, 0 outside (used to state the
multiplication contract pointwise). -/
def getE (y : List (List Int)) (i p : Nat) : Int := (y.getD i []).getD p 0

/-- Second definition for the refinement claim, following the words of the
multiplication contract (spec 4.3): the contribution of diagonal (d, k) to
output entry (i, p) is data[j] * x[j, p] at the window column j paired with
row i, and 0 when i is outside [i_start, i_end). -/
def specContrib (M N L : Nat) (x : List (List Int)) (d : List Int) (k : Int)
    (i p : Nat) : Int :=
  if inWindow M N L k i then
    d.getD (diaIndex k i) 0 * (x.getD (diaIndex k i) []).getD p 0
  else 0

/-- The multiplication contract of the spec, stated as a whole output: y has
shape (rows, P), and entry (i, p) is the zero-initialized accumulation of
every stored diagonal's contribution. -/
def specMatvec (m : dia_matrix) (x : List (List Int)) : List (List Int) :=
  (List.range m.shape.1).map (fun i =>
    (List.range (xWidth x)).map (fun p =>
      ((m.data.zip m.diags).map (fun dk =>
        specContrib m.shape.1 m.shape.2 m.L x dk.1 dk.2 i p)).sum))

/-- Dense entry (r, c) rebuilt from a coordinate export: values of all
triples at (r, c) are summed (the coo duplicate semantics). -/
def denseFromCoo (tr : List (Int × Int × Int)) (r c : Nat) : Int :=
  ((tr.filter (fun t => t.1 = (r : Int) ∧ t.2.1 = (c : Int))).map
    (fun t => t.2.2)).sum

/-- Second definition for the round-trip claim, following the words of the
element mapping (spec 3): the dense entry (r, c) obtained by directly
walking the stored diagonals, data[i][c] sitting at (c - k, c) when c < L. -/
def denseFromDiags (m : dia_matrix) (r c : Nat) : Int :=
  ((m.data.zip m.diags).map (fun dk =>
    if c < m.L ∧ (c : Int) - dk.2 = (r : Int) then dk.1.getD c 0 else 0)).sum

lemma mkDia_eq_ok {d : List (List Int)} {g : List Int} {s : Nat × Nat}
    {m : dia_matrix} (h : mkDia d g s = Except.ok m) :
    m = ⟨d, g, s⟩ ∧ rectangular d = true ∧ d.length = g.length ∧ g.Nodup := by
  unfold mkDia at h
  split_ifs at h with h1 h2 h3
  cases h
  exact ⟨rfl, h1, h2, ((List.dedup_sublist g).eq_of_length h3) ▸ List.nodup_dedup g⟩

lemma rectangular_map (d : List (List Int)) (f : Int → Int)
    (h : rectangular d = true) :
    rectangular (d.map (fun r => r.map f)) = true := by
  cases d with
  | nil => rfl
  | cons r rs =>
    simp only [rectangular, List.all_eq_true, List.head?, Option.map, Option.getD,
      decide_eq_true_eq, List.map_cons] at h ⊢
    intro a ha
    simp only [List.mem_cons, List.mem_map] at ha
    rcases ha with rfl | ⟨b, hb, rfl⟩
    · simp
    · have := h b (List.mem_cons_of_mem r hb)
      simp [this]

/-- C7: construction with a duplicated offset value always fails with
MalformedStructure; the constructor never deduplicates and never returns a
matrix. -/
theorem dia_duplicate_offsets_rejected (d : List (List Int)) (g : List Int)
    (s : Nat × Nat) (h : ¬ g.Nodup) :
    mkDia d g s = Except.error DiaError.MalformedStructure := by
  unfold mkDia
  split_ifs with h1 h2 h3
  · exact absurd (((List.dedup_sublist g).eq_of_length h3) ▸ List.nodup_dedup g) h
  all_goals rfl

theorem dia_duplicate_offsets_rejected_witness :
    mkDia [[1, 2], [3, 4]] [0, 0] (2, 2) = Except.error DiaError.MalformedStructure :=
  dia_duplicate_offsets_rejected [[1, 2], [3, 4]] [0, 0] (2, 2) (by decide)

/-- C8: a dense operand (rank 2 or rank 1) whose leading dimension differs
from the matrix's column count makes multiplication fail with
DimensionMismatch, with no partial result. -/
theorem dia_dimension_mismatch (m : dia_matrix) (x : List (List Int))
    (v : List Int) (hx : m.shape.2 ≠ x.length) (hv : m.shape.2 ≠ v.length) :
    m.matvec x = Except.error DiaError.DimensionMismatch ∧
      m.matvecVec v = Except.error DiaError.DimensionMismatch := by
  constructor
  · unfold dia_matrix.matvec
    rw [if_pos hx]
  · unfold dia_matrix.matvecVec dia_matrix.matvec
    rw [if_pos (by simpa using hv)]
    rfl

theorem dia_dimension_mismatch_witness :
    exDia.matvec [[1], [1], [1]] = Except.error DiaError.DimensionMismatch ∧
      exDia.matvecVec [1, 1, 1] = Except.error DiaError.DimensionMismatch :=
  dia_dimension_mismatch exDia [[1], [1], [1]] [1, 1, 1] (by decide) (by decide)

/-- C5: for shape (4,4) and offsets {0,-1,2} with L = 4, getnnz returns
4 + 3 + 2 = 9, and the value is the same when every stored value is zero
(structural count). -/
theorem dia_getnnz_example : exDia.getnnz = 9 ∧ zeroDia.getnnz = 9 := by
  constructor <;> rfl

/-- C3 (evidence): an offset whose magnitude exceeds the dimensions makes
getnnz add a negative summand — the code returns -6 on a 4 × 4 matrix with
single offset 10 instead of the floored value 0. -/
theorem dia_getnnz_negative : outDia.getnnz = -6 := by rfl

/-- C4: with rows = cols = 4, offset 0, stored strip [5,6] of width L = 2,
the coordinate export is exactly {(0,0,5), (1,1,6)}, multiplication by
[1,1,1,1] gives [5,6,0,0] (positions (2,2) and (3,3) contribute nothing),
yet getnnz still reports the ideal live-length 4. -/
theorem dia_truncated_strip :
    truncDia.tocoo = [(0, 0, 5), (1, 1, 6)] ∧
      truncDia.matvecVec [1, 1, 1, 1] = Except.ok [5, 6, 0, 0] ∧
      (∀ v : Int, (2, 2, v) ∉ truncDia.tocoo ∧ (3, 3, v) ∉ truncDia.tocoo) ∧
      truncDia.getnnz = 4 := by
  have h : truncDia.tocoo = [(0, 0, 5), (1, 1, 6)] := by rfl
  refine ⟨h, rfl, ?_, rfl⟩
  intro v
  rw [h]
  constructor <;> simp

/-- C9: getnnz reads only the shape and the offsets, so two matrices that
agree on those agree on getnnz whatever their data buffers hold; on the
truncated example the count (4) exceeds the 2 entries retrievable from the
stored strip. -/
theorem dia_getnnz_data_independent (m1 m2 : dia_matrix)
    (h1 : m1.shape = m2.shape) (h2 : m1.diags = m2.diags) :
    m1.getnnz = m2.getnnz ∧ truncDia.getnnz = 4 ∧ truncDia.tocoo.length = 2 ∧
      ((truncDia.tocoo.length : Int) < truncDia.getnnz) := by
  refine ⟨?_, rfl, rfl, by decide⟩
  unfold dia_matrix.getnnz
  rw [h1, h2]

theorem dia_getnnz_data_independent_witness :
    truncDia.getnnz = truncDia2.getnnz ∧
      truncDia.getnnz = 4 ∧ truncDia.tocoo.length = 2 ∧
      ((truncDia.tocoo.length : Int) < truncDia.getnnz) :=
  dia_getnnz_data_independent truncDia truncDia2 (by rfl) (by rfl)

/-- C6: scalar multiplication rebuilds through the constructor: on a valid
matrix it succeeds with every stored value multiplied by the scalar and the
offsets and shape unchanged; the scalar 1 returns the matrix unchanged. -/
theorem dia_scalar_mul (m : dia_matrix) (hr : rectangular m.data = true)
    (hK : m.data.length = m.diags.length) (hnd : m.diags.Nodup) :
    (∀ s : Int,
        m.mulScalar s =
          Except.ok ⟨m.data.map (fun r => r.map (fun v => s * v)), m.diags, m.shape⟩) ∧
      m.mulScalar 1 = Except.ok m := by
  have main : ∀ s : Int,
      m.mulScalar s =
        Except.ok ⟨m.data.map (fun r => r.map (fun v => s * v)), m.diags, m.shape⟩ := by
    intro s
    unfold dia_matrix.mulScalar mkDia
    rw [if_pos (rectangular_map m.data _ hr), if_pos (by simpa using hK),
      if_pos (by rw [hnd.dedup])]
  refine ⟨main, ?_⟩
  have h1 := main 1
  simpa using h1

theorem dia_scalar_mul_witness :
    (∀ s : Int,
        exDia.mulScalar s =
          Except.ok ⟨exDia.data.map (fun r => r.map (fun v => s * v)),
            exDia.diags, exDia.shape⟩) ∧
      exDia.mulScalar 1 = Except.ok exDia :=
  dia_scalar_mul exDia (by rfl) (by rfl) (by decide)

/-- C10: every matrix a constructing operation returns (scalar
multiplication, with-data reconstruction) satisfies the structural
invariants, with shape and offsets preserved, because both paths rebuild
through the validating constructor. -/
theorem dia_constructor_invariants :
    (∀ (m : dia_matrix) (s : Int) (m' : dia_matrix),
        m.mulScalar s = Except.ok m' →
          Invariants m' ∧ m'.shape = m.shape ∧ m'.diags = m.diags) ∧
      (∀ (m : dia_matrix) (d : List (List Int)) (m' : dia_matrix),
        m.withData d = Except.ok m' →
          Invariants m' ∧ m'.shape = m.shape ∧ m'.diags = m.diags) := by
  constructor
  · intro m s m' h
    obtain ⟨he, h1, h2, h3⟩ := mkDia_eq_ok h
    subst he
    exact ⟨⟨h1, h2, h3⟩, rfl, rfl⟩
  · intro m d m' h
    obtain ⟨he, h1, h2, h3⟩ := mkDia_eq_ok h
    subst he
    exact ⟨⟨h1, h2, h3⟩, rfl, rfl⟩

lemma updRows_length (f : Nat → List Int → List Int) (i : Nat)
    (y : List (List Int)) : (updRows f i y).length = y.length := by
  induction y generalizing i with
  | nil => rfl
  | cons r rs ih => simp [updRows, ih]

lemma getD_updRows (f : Nat → List Int → List Int) (i j : Nat)
    (y : List (List Int)) (hj : j < y.length) :
    (updRows f i y).getD j [] = f (i + j) (y.getD j []) := by
  induction y generalizing i j with
  | nil => simp at hj
  | cons r rs ih =>
    cases j with
    | zero => simp [updRows]
    | succ j2 =>
      have hj2 : j2 < rs.length := by simpa using hj
      have h3 := ih (i + 1) j2 hj2
      have h4 : i + 1 + j2 = i + (j2 + 1) := by omega
      simpa [updRows, h4] using h3

lemma updRows_rowslen (f : Nat → List Int → List Int) (P : Nat)
    (hf : ∀ i r, r.length = P → (f i r).length = P) :
    ∀ (i : Nat) (y : List (List Int)), RowsLen y P → RowsLen (updRows f i y) P := by
  intro i y
  induction y generalizing i with
  | nil => intro _ r hr; simp [updRows] at hr
  | cons r rs ih =>
    intro hy r2 hr2
    simp only [updRows, List.mem_cons] at hr2
    rcases hr2 with rfl | hmem
    · exact hf i r (hy r (List.mem_cons_self r rs))
    · exact ih (i + 1) (fun a ha => hy a (List.mem_cons_of_mem r ha)) r2 hmem

lemma applyDiag_length (M N L : Nat) (x : List (List Int)) (d : List Int)
    (k : Int) (y : List (List Int)) :
    (applyDiag M N L x d k y).length = y.length :=
  updRows_length _ 0 y

lemma inWindow_bounds {M N L : Nat} {k : Int} {i : Nat}
    (h : inWindow M N L k i) :
    i < M ∧ diaIndex k i < N ∧ diaIndex k i < L := by
  obtain ⟨h1, h2⟩ := h
  simp only [iStartOf, jStartOf, jEndOf, diaIndex] at h1 h2 ⊢
  omega

lemma applyDiag_rowslen {M N L P : Nat} {x : List (List Int)}
    (hxlen : x.length = N) (hxw : RowsLen x P) (d : List Int) (k : Int)
    {y : List (List Int)} (hy : RowsLen y P) :
    RowsLen (applyDiag M N L x d k y) P := by
  apply updRows_rowslen _ P _ 0 y hy
  intro i r hr
  dsimp only
  split_ifs with hw
  · have hjN : diaIndex k i < N := (inWindow_bounds hw).2.1
    have hjx : diaIndex k i < x.length := by omega
    have hxj : (x.getD (diaIndex k i) []).length = P := by
      rw [List.getD_eq_getElem x [] hjx]
      exact hxw _ (List.getElem_mem hjx)
    rw [List.length_zipWith, hr, hxj, Nat.min_self]
  · exact hr

lemma getE_applyDiag {M N L P : Nat} {x : List (List Int)}
    (hxlen : x.length = N) (hxw : RowsLen x P) (d : List Int) (k : Int)
    {y : List (List Int)} (hy : RowsLen y P) {i p : Nat}
    (hi : i < y.length) (hp : p < P) :
    getE (applyDiag M N L x d k y) i p
      = getE y i p + specContrib M N L x d k i p := by
  have hrow : (y.getD i []).length = P := by
    rw [List.getD_eq_getElem y [] hi]
    exact hy _ (List.getElem_mem hi)
  unfold getE specContrib applyDiag
  rw [getD_updRows _ 0 i y hi, Nat.zero_add]
  split_ifs with hw
  · have hjN : diaIndex k i < N := (inWindow_bounds hw).2.1
    have hjx : diaIndex k i < x.length := by omega
    have hxj : (x.getD (diaIndex k i) []).length = P := by
      rw [List.getD_eq_getElem x [] hjx]
      exact hxw _ (List.getElem_mem hjx)
    have hzl : p < (List.zipWith
        (fun yv xv => yv + d.getD (diaIndex k i) 0 * xv)
        (y.getD i []) (x.getD (diaIndex k i) [])).length := by
      rw [List.length_zipWith, hrow, hxj, Nat.min_self]
      exact hp
    rw [List.getD_eq_getElem _ 0 hzl, List.getElem_zipWith,
      List.getD_eq_getElem _ 0 (by omega : p < (y.getD i []).length),
      List.getD_eq_getElem _ 0 (by omega : p < (x.getD (diaIndex k i) []).length)]
  · rw [add_zero]

lemma fold_applyDiag_length (M N L : Nat) (x : List (List Int))
    (pairs : List (List Int × Int)) :
    ∀ y : List (List Int),
      (pairs.foldl (fun y2 dk => applyDiag M N L x dk.1 dk.2 y2) y).length
        = y.length := by
  induction pairs with
  | nil => intro y; rfl
  | cons dk rest ih =>
    intro y
    rw [List.foldl_cons, ih, applyDiag_length]

lemma getE_fold_applyDiag {M N L P : Nat} {x : List (List Int)}
    (hxlen : x.length = N) (hxw : RowsLen x P)
    (pairs : List (List Int × Int)) :
    ∀ y : List (List Int), RowsLen y P → ∀ i p : Nat, i < y.length → p < P →
      getE (pairs.foldl (fun y2 dk => applyDiag M N L x dk.1 dk.2 y2) y) i p
        = getE y i p
          + (pairs.map (fun dk => specContrib M N L x dk.1 dk.2 i p)).sum := by
  induction pairs with
  | nil => intro y hy i p hi hp; simp
  | cons dk rest ih =>
    intro y hy i p hi hp
    simp only [List.foldl_cons, List.map_cons, List.sum_cons]
    rw [ih (applyDiag M N L x dk.1 dk.2 y)
        (applyDiag_rowslen hxlen hxw dk.1 dk.2 hy) i p
        (by rw [applyDiag_length]; exact hi) hp,
      getE_applyDiag hxlen hxw dk.1 dk.2 hy hi hp]
    ring

lemma fold_applyDiag_rowslen {M N L P : Nat} {x : List (List Int)}
    (hxlen : x.length = N) (hxw : RowsLen x P)
    (pairs : List (List Int × Int)) :
    ∀ y : List (List Int), RowsLen y P →
      RowsLen (pairs.foldl (fun y2 dk => applyDiag M N L x dk.1 dk.2 y2) y) P := by
  induction pairs with
  | nil => intro y hy; exact hy
  | cons dk rest ih =>
    intro y hy
    exact ih _ (applyDiag_rowslen hxlen hxw dk.1 dk.2 hy)

lemma lens_eq_of_inRange {M N L : Nat} {k : Int}
    (h1 : -(M : Int) ≤ k) (h2 : k ≤ (N : Int)) (h3 : k ≤ (L : Int)) :
    lenA M N L k = lenB M N L k ∧ lenA M N L k = lenC M N L k := by
  unfold lenA lenB lenC sliceLen sliceIdx jStartOf jEndOf iStartOf
  refine ⟨?_, ?_⟩ <;> (split_ifs <;> omega)

lemma diagOk_of_inRange {M N L : Nat} {k : Int}
    (h1 : -(M : Int) ≤ k) (h2 : k ≤ (N : Int)) (h3 : k ≤ (L : Int)) :
    diagOk M N L k := by
  obtain ⟨e1, e2⟩ := lens_eq_of_inRange h1 h2 h3
  exact ⟨Or.inl e1, Or.inl e2, Or.inl (by omega),
    fun hc => ⟨by omega, by omega⟩⟩

lemma foldlM_applyDiag_ok {M N L : Nat} {x : List (List Int)}
    (pairs : List (List Int × Int))
    (hok : ∀ dk ∈ pairs, diagOk M N L dk.2) :
    ∀ y : List (List Int),
      (pairs.foldlM
        (fun y2 dk =>
          if diagOk M N L dk.2 then
            Except.ok (applyDiag M N L x dk.1 dk.2 y2)
          else Except.error DiaError.BroadcastMismatch) y
        : Except DiaError (List (List Int)))
        = Except.ok
            (pairs.foldl (fun y2 dk => applyDiag M N L x dk.1 dk.2 y2) y) := by
  induction pairs with
  | nil => intro y; rfl
  | cons dk rest ih =>
    intro y
    rw [List.foldlM_cons, if_pos (hok dk (List.mem_cons_self dk rest)),
      List.foldl_cons]
    exact ih (fun a ha => hok a (List.mem_cons_of_mem dk ha))
      (applyDiag M N L x dk.1 dk.2 y)

lemma matvec_eq_spec (m : dia_matrix) (x : List (List Int))
    (hx : x.length = m.shape.2) (hxw : RowsLen x (xWidth x))
    (hk : ∀ k ∈ m.diags,
      -(m.shape.1 : Int) ≤ k ∧ k ≤ (m.shape.2 : Int) ∧ k ≤ (m.L : Int)) :
    m.matvec x = Except.ok (specMatvec m x) := by
  unfold dia_matrix.matvec
  rw [if_neg (not_not_intro hx.symm)]
  have hok : ∀ dk ∈ m.data.zip m.diags, diagOk m.shape.1 m.shape.2 m.L dk.2 := by
    intro dk hdk
    obtain ⟨h1, h2, h3⟩ := hk dk.2 (List.of_mem_zip hdk).2
    exact diagOk_of_inRange h1 h2 h3
  rw [foldlM_applyDiag_ok (m.data.zip m.diags) hok]
  congr 1
  set P := xWidth x with hP
  set y0 : List (List Int) := List.replicate m.shape.1 (List.replicate P 0) with hy0def
  set F := (m.data.zip m.diags).foldl
      (fun y2 dk => applyDiag m.shape.1 m.shape.2 m.L x dk.1 dk.2 y2) y0 with hFdef
  have hy0 : RowsLen y0 P := by
    intro r hr
    rw [hy0def] at hr
    rw [List.eq_of_mem_replicate hr]
    exact List.length_replicate _ _
  have hlenF : F.length = m.shape.1 := by
    rw [hFdef, fold_applyDiag_length, hy0def, List.length_replicate]
  have hrowsF : RowsLen F P := by
    rw [hFdef]
    exact fold_applyDiag_rowslen hx hxw _ y0 hy0
  apply List.ext_getElem
  · rw [hlenF]
    simp [specMatvec]
  · intro n h1 h2
    have hn : n < m.shape.1 := by rw [← hlenF]; exact h1
    apply List.ext_getElem
    · have hFn : F[n].length = P := hrowsF _ (List.getElem_mem h1)
      rw [hFn]
      simp [specMatvec, hP]
    · intro p hp1 hp2
      have hFn : F[n].length = P := hrowsF _ (List.getElem_mem h1)
      have hpP : p < P := by rw [← hFn]; exact hp1
      have e1 : getE F n p = F[n].getD p 0 := by
        unfold getE
        rw [List.getD_eq_getElem F [] h1]
      have e2 : F[n].getD p 0 = F[n][p] := List.getD_eq_getElem _ 0 hp1
      have e3 : getE F n p = getE y0 n p
          + ((m.data.zip m.diags).map
              (fun dk => specContrib m.shape.1 m.shape.2 m.L x dk.1 dk.2 n p)).sum := by
        rw [hFdef]
        exact getE_fold_applyDiag hx hxw _ y0 hy0 n p
          (by rw [hy0def, List.length_replicate]; exact hn) hpP
      have e4 : getE y0 n p = 0 := by
        unfold getE
        rw [hy0def]
        rw [List.getD_eq_getElem _ [] (by rw [List.length_replicate]; exact hn),
          List.getElem_replicate,
          List.getD_eq_getElem _ 0 (by rw [List.length_replicate]; exact hpP),
          List.getElem_replicate]
      rw [← e2, ← e1, e3, e4, zero_add]
      simp [specMatvec, hP]

/-- C1 (amended): for a DiagonalMatrix all of whose stored offsets k
satisfy -rows ≤ k ≤ cols and k ≤ L — every diagonal's slice windows are
consistent, so the loop's multiply never raises — multiplying by a dense
operand whose leading dimension equals the column count produces the spec's
zero-initialized diagonal-by-diagonal accumulation, of shape (rows, P)
(rank 1 for a rank-1 operand); in particular the worked example times
[1,1,1,1] yields [4,7,5,7]. -/
theorem dia_matvec_correct (m : dia_matrix) (x : List (List Int)) (v : List Int)
    (hx : x.length = m.shape.2) (hxw : ∀ r ∈ x, r.length = xWidth x)
    (hv : v.length = m.shape.2)
    (hk : ∀ k ∈ m.diags,
      -(m.shape.1 : Int) ≤ k ∧ k ≤ (m.shape.2 : Int) ∧ k ≤ (m.L : Int)) :
    m.matvec x = Except.ok (specMatvec m x) ∧
      (specMatvec m x).length = m.shape.1 ∧
      (∀ r ∈ specMatvec m x, r.length = xWidth x) ∧
      m.matvecVec v = Except.ok
        ((specMatvec m (v.map (fun a => [a]))).map (fun r => r.getD 0 0)) ∧
      (specMatvec m (v.map (fun a => [a]))).length = m.shape.1 ∧
      exDia.matvecVec [1, 1, 1, 1] = Except.ok [4, 7, 5, 7] := by
  refine ⟨matvec_eq_spec m x hx hxw hk, by simp [specMatvec], ?_, ?_,
    by simp [specMatvec], by rfl⟩
  · intro r hr
    simp only [specMatvec, List.mem_map, List.mem_range] at hr
    obtain ⟨i, hi, rfl⟩ := hr
    simp
  · have hvw : RowsLen (v.map (fun a => [a])) (xWidth (v.map (fun a => [a]))) := by
      intro r hr
      simp only [List.mem_map] at hr
      obtain ⟨a, ha, rfl⟩ := hr
      cases v with
      | nil => simp at ha
      | cons b bs => simp [xWidth]
    have h1 := matvec_eq_spec m (v.map (fun a => [a])) (by simpa using hv) hvw hk
    unfold dia_matrix.matvecVec
    rw [h1]
    rfl

theorem dia_matvec_correct_witness :
    exDia.matvec [[1], [1], [1], [1]]
        = Except.ok (specMatvec exDia [[1], [1], [1], [1]]) ∧
      (specMatvec exDia [[1], [1], [1], [1]]).length = exDia.shape.1 ∧
      (∀ r ∈ specMatvec exDia [[1], [1], [1], [1]],
        r.length = xWidth [[1], [1], [1], [1]]) ∧
      exDia.matvecVec [1, 1, 1, 1] = Except.ok
        ((specMatvec exDia ([1, 1, 1, 1].map (fun a => [a]))).map
          (fun r => r.getD 0 0)) ∧
      (specMatvec exDia ([1, 1, 1, 1].map (fun a => [a]))).length = exDia.shape.1 ∧
      exDia.matvecVec [1, 1, 1, 1] = Except.ok [4, 7, 5, 7] :=
  dia_matvec_correct exDia [[1], [1], [1], [1]] [1, 1, 1, 1]
    (by rfl) (by decide) (by rfl) (by decide)

/-- C1 (counterexample to the unrestricted claim): on the validly
constructed crashDia (offset 5, shape (4,4), L = 4) and operand [1,1,1,1],
the source's multiply is handed slices of 0, 0 and 3 rows (temp[0:-1]
wraps) and raises, so multiplication produces no output at all — likewise
for offset -5, where the input slices wrap to 3 rows against an empty
output slice. -/
theorem dia_matvec_crash :
    crashDia.matvecVec [1, 1, 1, 1] = Except.error DiaError.BroadcastMismatch ∧
      crashDia.matvec [[1], [1], [1], [1]]
        = Except.error DiaError.BroadcastMismatch ∧
      crashDia2.matvecVec [1, 1, 1, 1] = Except.error DiaError.BroadcastMismatch ∧
      ¬ ∃ y, crashDia.matvecVec [1, 1, 1, 1] = Except.ok y := by
  refine ⟨rfl, rfl, rfl, ?_⟩
  rintro ⟨y, hy⟩
  rw [show crashDia.matvecVec [1, 1, 1, 1]
      = Except.error DiaError.BroadcastMismatch from rfl] at hy
  cases hy

lemma mem_perDiag {M N L : Nat} {d : List Int} {k : Int} {tr : Int × Int × Int} :
    tr ∈ perDiag M N L d k ↔
      ∃ c : Nat, c < L ∧ 0 ≤ (c : Int) - k ∧ (c : Int) - k < (M : Int) ∧
        (c : Int) < (N : Int) ∧ tr = ((c : Int) - k, (c : Int), d.getD c 0) := by
  unfold perDiag
  rw [List.mem_filterMap]
  constructor
  · rintro ⟨c, hc, hsome⟩
    rw [List.mem_range] at hc
    unfold diagTriple at hsome
    split_ifs at hsome with hcond
    obtain ⟨hc1, hc2, hc3⟩ := hcond
    have h4 := Option.some.inj hsome
    exact ⟨c, hc, hc1, hc2, hc3, h4.symm⟩
  · rintro ⟨c, hc, h1, h2, h3, rfl⟩
    exact ⟨c, List.mem_range.mpr hc,
      by unfold diagTriple; rw [if_pos ⟨h1, h2, h3⟩]⟩

lemma perDiag_nodup (M N L : Nat) (d : List Int) (k : Int) :
    (perDiag M N L d k).Nodup := by
  unfold perDiag
  apply List.Nodup.filterMap _ (List.nodup_range L)
  intro a a2 b hb hb2
  unfold diagTriple at hb hb2
  rw [Option.mem_def] at hb hb2
  split_ifs at hb with h1
  split_ifs at hb2 with h2
  have e1 := Option.some.inj hb
  have e2 := Option.some.inj hb2
  have e3 : b.2.1 = (a : Int) := by rw [← e1]
  have e4 : b.2.1 = (a2 : Int) := by rw [← e2]
  omega

lemma tocoo_mem {m : dia_matrix} {tr : Int × Int × Int} :
    tr ∈ m.tocoo ↔ ∃ dk ∈ m.data.zip m.diags,
      tr ∈ perDiag m.shape.1 m.shape.2 m.L dk.1 dk.2 := by
  unfold dia_matrix.tocoo
  rw [List.mem_flatten]
  constructor
  · rintro ⟨l, hl, ht⟩
    rw [List.mem_map] at hl
    obtain ⟨dk, hdk, rfl⟩ := hl
    exact ⟨dk, hdk, ht⟩
  · rintro ⟨dk, hdk, ht⟩
    exact ⟨_, List.mem_map_of_mem _ hdk, ht⟩

lemma tocoo_nodup (m : dia_matrix) (hK : m.data.length = m.diags.length)
    (hnd : m.diags.Nodup) : m.tocoo.Nodup := by
  unfold dia_matrix.tocoo
  rw [List.nodup_flatten]
  constructor
  · intro l hl
    rw [List.mem_map] at hl
    obtain ⟨dk, _, rfl⟩ := hl
    exact perDiag_nodup _ _ _ _ _
  · rw [List.pairwise_map]
    have hmap : (m.data.zip m.diags).map Prod.snd = m.diags :=
      List.map_snd_zip m.data m.diags (le_of_eq hK.symm)
    have hzip : List.Pairwise (fun a b : List Int × Int => a.2 ≠ b.2)
        (m.data.zip m.diags) := by
      have hp : List.Pairwise (fun a b : Int => a ≠ b)
          ((m.data.zip m.diags).map Prod.snd) := by
        rw [hmap]
        exact hnd
      exact List.pairwise_map.mp hp
    apply hzip.imp
    intro a b hab t ht1 ht2
    obtain ⟨c, _, _, _, _, he1⟩ := mem_perDiag.mp ht1
    obtain ⟨c2, _, _, _, _, he2⟩ := mem_perDiag.mp ht2
    rw [he2] at he1
    rw [Prod.mk.injEq, Prod.mk.injEq] at he1
    obtain ⟨e1, e2, _⟩ := he1
    exact hab (by omega)

lemma diag_filter_sum_aux (M N : Nat) (d : List Int) (k : Int) (r c : Nat) :
    ∀ cs : List Nat, cs.Nodup →
      (((cs.filterMap (diagTriple M N d k)).filter
          (fun t => t.1 = (r : Int) ∧ t.2.1 = (c : Int))).map
        (fun t => t.2.2)).sum
      = if c ∈ cs ∧ (0 ≤ (c : Int) - k ∧ (c : Int) - k < (M : Int) ∧
            (c : Int) < (N : Int)) ∧ (c : Int) - k = (r : Int)
        then d.getD c 0 else 0 := by
  intro cs hnd
  induction cs with
  | nil => simp
  | cons c2 rest ih =>
    have ih2 := ih (List.Nodup.of_cons hnd)
    by_cases hmask : 0 ≤ (c2 : Int) - k ∧ (c2 : Int) - k < (M : Int) ∧
        (c2 : Int) < (N : Int)
    · have hsome : diagTriple M N d k c2
          = some ((c2 : Int) - k, (c2 : Int), d.getD c2 0) := by
        unfold diagTriple
        rw [if_pos hmask]
      rw [List.filterMap_cons_some hsome]
      by_cases hq : (c2 : Int) - k = (r : Int) ∧ (c2 : Int) = (c : Int)
      · rw [List.filter_cons_of_pos (by simpa using hq)]
        rw [List.map_cons, List.sum_cons, ih2]
        have hceq : c2 = c := by omega
        subst hceq
        have hnotmem := (List.nodup_cons.mp hnd).1
        rw [if_neg (fun hcon => hnotmem hcon.1),
          if_pos ⟨List.mem_cons_self c2 rest, hmask, hq.1⟩, add_zero]
      · rw [List.filter_cons_of_neg (by simpa using hq), ih2]
        by_cases hcc : c = c2
        · subst hcc
          have hnotmem := (List.nodup_cons.mp hnd).1
          rw [if_neg (fun hcon => hnotmem hcon.1),
            if_neg (fun hcon => hq ⟨hcon.2.2, rfl⟩)]
        · simp only [List.mem_cons]
          simp [hcc]
    · have hnone : diagTriple M N d k c2 = none := by
        unfold diagTriple
        rw [if_neg hmask]
      rw [List.filterMap_cons_none hnone, ih2]
      by_cases hcc : c = c2
      · subst hcc
        have hnotmem := (List.nodup_cons.mp hnd).1
        rw [if_neg (fun hcon => hnotmem hcon.1),
          if_neg (fun hcon => hmask hcon.2.1)]
      · simp only [List.mem_cons]
        simp [hcc]

lemma perDiag_filter_sum {M N L : Nat} (d : List Int) (k : Int) {r c : Nat}
    (hr : r < M) (hc : c < N) :
    (((perDiag M N L d k).filter
        (fun t => t.1 = (r : Int) ∧ t.2.1 = (c : Int))).map (fun t => t.2.2)).sum
      = if c < L ∧ (c : Int) - k = (r : Int) then d.getD c 0 else 0 := by
  unfold perDiag
  rw [diag_filter_sum_aux M N d k r c (List.range L) (List.nodup_range L)]
  simp only [List.mem_range]
  split_ifs with h1 h2 h2
  · rfl
  · exact absurd ⟨h1.1, h1.2.2⟩ h2
  · exact absurd ⟨h2.1, ⟨by omega, by omega, by omega⟩, h2.2⟩ h1
  · rfl

lemma countP_eq_one_of_nodup_mem {α : Type} [DecidableEq α] {l : List α} {a : α}
    (hnd : l.Nodup) (hm : a ∈ l) : l.countP (fun t => t = a) = 1 := by
  induction l with
  | nil => simp at hm
  | cons b rest ih =>
    rw [List.countP_cons]
    rcases List.mem_cons.mp hm with rfl | hmem
    · have hnotmem := (List.nodup_cons.mp hnd).1
      have hz : List.countP (fun t => decide (t = a)) rest = 0 := by
        rw [List.countP_eq_zero]
        intro t ht
        simp only [decide_eq_true_eq]
        intro he
        exact hnotmem (he ▸ ht)
      simp [hz]
    · have hb : b ≠ a := by
        rintro rfl
        exact (List.nodup_cons.mp hnd).1 hmem
      rw [ih (List.Nodup.of_cons hnd) hmem]
      simp [hb]

lemma dense_eq_aux (M N L : Nat) (r c : Nat) (hr : r < M) (hc : c < N) :
    ∀ pairs : List (List Int × Int),
      denseFromCoo ((pairs.map (fun dk => perDiag M N L dk.1 dk.2)).flatten) r c
        = (pairs.map (fun dk =>
            if c < L ∧ (c : Int) - dk.2 = (r : Int) then dk.1.getD c 0 else 0)).sum := by
  intro pairs
  induction pairs with
  | nil => simp [denseFromCoo]
  | cons dk rest ih =>
    simp only [List.map_cons, List.flatten_cons, List.sum_cons]
    unfold denseFromCoo at ih ⊢
    rw [List.filter_append, List.map_append, List.sum_append, ih]
    congr 1
    exact perDiag_filter_sum dk.1 dk.2 hr hc

lemma denseFromCoo_tocoo (m : dia_matrix) (r c : Nat)
    (hr : r < m.shape.1) (hc : c < m.shape.2) :
    denseFromCoo m.tocoo r c = denseFromDiags m r c := by
  unfold dia_matrix.tocoo denseFromDiags
  exact dense_eq_aux m.shape.1 m.shape.2 m.L r c hr hc (m.data.zip m.diags)

/-- C2: the coordinate export holds exactly the live entries of the element
mapping: every live (c - k, c) with its stored value appears exactly once,
every exported triple is such a live entry, and the dense matrix rebuilt
from the export equals the dense matrix obtained by walking the diagonals. -/
theorem dia_tocoo_exact (m : dia_matrix) (hK : m.data.length = m.diags.length)
    (hnd : m.diags.Nodup) :
    (∀ r c : Nat, r < m.shape.1 → c < m.shape.2 →
        denseFromCoo m.tocoo r c = denseFromDiags m r c) ∧
      (∀ i c : Nat, i < m.diags.length → c < m.L →
        0 ≤ (c : Int) - m.diags.getD i 0 →
        (c : Int) - m.diags.getD i 0 < (m.shape.1 : Int) →
        (c : Int) < (m.shape.2 : Int) →
        m.tocoo.countP (fun t =>
          t = ((c : Int) - m.diags.getD i 0, (c : Int),
            (m.data.getD i []).getD c 0)) = 1) ∧
      (∀ tr ∈ m.tocoo, ∃ i c : Nat, i < m.diags.length ∧ c < m.L ∧
        0 ≤ (c : Int) - m.diags.getD i 0 ∧
        (c : Int) - m.diags.getD i 0 < (m.shape.1 : Int) ∧
        (c : Int) < (m.shape.2 : Int) ∧
        tr = ((c : Int) - m.diags.getD i 0, (c : Int),
          (m.data.getD i []).getD c 0)) := by
  refine ⟨fun r c hr hc => denseFromCoo_tocoo m r c hr hc, ?_, ?_⟩
  · intro i c hi hcL h1 h2 h3
    have hiD : i < m.data.length := by omega
    have hzl : i < (m.data.zip m.diags).length := by
      rw [List.length_zip]
      omega
    have hmem : (m.data.zip m.diags)[i] ∈ m.data.zip m.diags :=
      List.getElem_mem hzl
    rw [List.getElem_zip] at hmem
    rw [List.getD_eq_getElem m.diags 0 hi] at h1 h2 ⊢
    rw [List.getD_eq_getElem m.data [] hiD]
    apply countP_eq_one_of_nodup_mem (tocoo_nodup m hK hnd)
    apply tocoo_mem.mpr
    exact ⟨_, hmem, mem_perDiag.mpr ⟨c, hcL, h1, h2, h3, rfl⟩⟩
  · intro tr htr
    obtain ⟨dk, hdk, hper⟩ := tocoo_mem.mp htr
    obtain ⟨c, hcL, h1, h2, h3, rfl⟩ := mem_perDiag.mp hper
    obtain ⟨i, hzl, hdki⟩ := List.getElem_of_mem hdk
    rw [List.getElem_zip] at hdki
    have hiD : i < m.data.length := by
      rw [List.length_zip] at hzl
      omega
    have hig : i < m.diags.length := by
      rw [List.length_zip] at hzl
      omega
    have e1 : m.data.getD i [] = dk.1 := by
      rw [List.getD_eq_getElem m.data [] hiD, ← hdki]
    have e2 : m.diags.getD i 0 = dk.2 := by
      rw [List.getD_eq_getElem m.diags 0 hig, ← hdki]
    exact ⟨i, c, hig, hcL, by omega, by omega, h3, by rw [e1, e2]⟩

theorem dia_tocoo_exact_witness :
    (∀ r c : Nat, r < exDia.shape.1 → c < exDia.shape.2 →
        denseFromCoo exDia.tocoo r c = denseFromDiags exDia r c) ∧
      (∀ i c : Nat, i < exDia.diags.length → c < exDia.L →
        0 ≤ (c : Int) - exDia.diags.getD i 0 →
        (c : Int) - exDia.diags.getD i 0 < (exDia.shape.1 : Int) →
        (c : Int) < (exDia.shape.2 : Int) →
        exDia.tocoo.countP (fun t =>
          t = ((c : Int) - exDia.diags.getD i 0, (c : Int),
            (exDia.data.getD i []).getD c 0)) = 1) ∧
      (∀ tr ∈ exDia.tocoo, ∃ i c : Nat, i < exDia.diags.length ∧ c < exDia.L ∧
        0 ≤ (c : Int) - exDia.diags.getD i 0 ∧
        (c : Int) - exDia.diags.getD i 0 < (exDia.shape.1 : Int) ∧
        (c : Int) < (exDia.shape.2 : Int) ∧
        tr = ((c : Int) - exDia.diags.getD i 0, (c : Int),
          (exDia.data.getD i []).getD c 0)) :=
  dia_tocoo_exact exDia (by rfl) (by decide)
